import Mathlib

/-!
Verification of the kobe multi-chain wallet core (Rust) against its
natural-language specification.  The Rust sources are shallowly embedded:
bytes are `Nat` (with explicit `< 256` / `% 2^w` bounds where overflow
matters), byte strings are `List Nat`, Rust `String` is Lean `String`,
fallible functions return `Except Error` mirroring `kobe::Result`.
External collaborator crates (sha2, sha3, bs58, bech32, k256) are embedded
by their documented algorithms where a claim needs their concrete values,
and abstracted as explicit function arguments where a claim is independent
of them (raw elliptic-curve arithmetic, wordlist data tables).
-/

set_option maxRecDepth 100000
set_option maxHeartbeats 4000000

namespace Kobe

/-- The error enum from src/kobe/src/error.rs (the `Message` variants carry
strings and are not produced by any function embedded here). -/
inductive Error where
  | InvalidPrivateKey
  | InvalidPublicKey
  | InvalidSignature
  | InvalidAddress
  | InvalidChecksum
  | InvalidLength (expected actual : Nat)
  | InvalidEncoding
  | InvalidDerivationPath
  | InvalidMnemonic
  | InvalidWord
  | InvalidEntropyLength
  | CryptoError
  deriving DecidableEq, Repr

instance {ε α : Type} [DecidableEq ε] [DecidableEq α] : DecidableEq (Except ε α) := by
  intro a b
  cases a <;> cases b
  case error.error e1 e2 =>
    exact match decEq e1 e2 with
      | isTrue h => isTrue (by rw [h])
      | isFalse h => isFalse (by intro hc; cases hc; exact h rfl)
  case error.ok _ _ => exact isFalse (by intro hc; cases hc)
  case ok.error _ _ => exact isFalse (by intro hc; cases hc)
  case ok.ok a1 a2 =>
    exact match decEq a1 a2 with
      | isTrue h => isTrue (by rw [h])
      | isFalse h => isFalse (by intro hc; cases hc; exact h rfl)

/-! ## Hex encoding (src/kobe/src/encoding.rs, `to_hex` / `from_hex`) -/

/-- The constant `HEX_CHARS` from `to_hex`. -/
def HEX_CHARS : List Char := ("0123456789abcdef").data

/-- `to_hex`: each byte emits its high nibble (`byte >> 4`) then its low
nibble (`byte & 0x0f`), looked up in `HEX_CHARS`.  Rust indexes the array
directly (a byte is always < 256 so the nibbles are < 16); `getD` with an
arbitrary default models that total lookup. -/
def to_hex (bytes : List Nat) : String :=
  String.mk ((bytes.map (fun b => [HEX_CHARS.getD (b >>> 4) '0', HEX_CHARS.getD (b &&& 0x0f) '0'])).flatten)

/-- `hex_char_to_nibble`.  Rust matches on the UTF-8 byte of the character;
for the ASCII ranges matched here byte and `Char` coincide. -/
def hex_char_to_nibble (c : Char) : Except Error Nat :=
  if ('0' ≤ c ∧ c ≤ '9') then .ok (c.toNat - ('0').toNat)
  else if ('a' ≤ c ∧ c ≤ 'f') then .ok (c.toNat - ('a').toNat + 10)
  else if ('A' ≤ c ∧ c ≤ 'F') then .ok (c.toNat - ('A').toNat + 10)
  else .error .InvalidEncoding

/-- The chunk loop of `from_hex`: pairs of characters become bytes
`(high << 4) | low`; the first invalid character aborts.  A trailing lone
character cannot occur in `from_hex` (the length is checked even first);
the `[_]` case is the error it would map to. -/
def decode_hex_pairs : List Char → Except Error (List Nat)
  | [] => .ok []
  | [_] => .error .InvalidEncoding
  | c1 :: c2 :: rest => do
    let high ← hex_char_to_nibble c1
    let low ← hex_char_to_nibble c2
    let tail ← decode_hex_pairs rest
    pure (((high <<< 4) ||| low) :: tail)

/-- The character-list body of `from_hex`: strip an optional leading `0x`,
reject odd length with `InvalidEncoding`, then decode pairs. -/
def from_hex_chars (cs : List Char) : Except Error (List Nat) :=
  let cs := if cs.take 2 = ['0','x'] then cs.drop 2 else cs
  if cs.length % 2 ≠ 0 then .error .InvalidEncoding
  else decode_hex_pairs cs

/-- `from_hex`.  Hex characters are ASCII, so working on characters agrees
with Rust's byte-level loop on every input: any string whose character
length and byte length differ contains a non-ASCII (hence non-hex)
character and is rejected with `InvalidEncoding` either way. -/
def from_hex (s : String) : Except Error (List Nat) :=
  from_hex_chars s.data

/-- The strip step of `from_hex`, exposed for stating the claim. -/
def strip0x (cs : List Char) : List Char :=
  if cs.take 2 = ['0','x'] then cs.drop 2 else cs

/-- A character is accepted by `hex_char_to_nibble`. -/
def isHexChar (c : Char) : Bool :=
  (('0' ≤ c ∧ c ≤ '9') ∨ ('a' ≤ c ∧ c ≤ 'f') ∨ ('A' ≤ c ∧ c ≤ 'F') : Prop)

/-! ## BIP-39 wordlist interface (src/kobe/src/wordlist/bip39.rs) -/

/-- The `Language` enum. -/
inductive Language where
  | ChineseSimplified
  | ChineseTraditional
  | English
  | French
  | Italian
  | Japanese
  | Korean
  | Spanish
  deriving DecidableEq, Repr

/-- `Language::get_word`.  The eight wordlist text tables are `include_str!`
data files (external read-only collaborators, not part of the Rust sources
here); `lines lang` stands for `wordlist_str(lang).lines()` and is passed
explicitly.  `Iterator::nth` on the line iterator is `List.get?`. -/
def Language.get_word (lines : Language → List String) (lang : Language) (index : Nat) :
    Option String :=
  if index ≥ 2048 then none
  else (lines lang).get? index

/-! ## Ethereum networks (src/kobe-eth/src/network.rs) -/

/-- The `Network` enum (the `alloc`-gated `Custom` variant included). -/
inductive Network where
  | Mainnet
  | Sepolia
  | Goerli
  | BinanceSmartChain
  | Polygon
  | Arbitrum
  | Optimism
  | Avalanche
  | Base
  | Custom (name : String) (chain_id : Nat)
  deriving DecidableEq, Repr

/-- `Network::chain_id` (chain ids are `u64`; all constants fit). -/
def Network.chain_id : Network → Nat
  | .Mainnet => 1
  | .Sepolia => 11155111
  | .Goerli => 5
  | .BinanceSmartChain => 56
  | .Polygon => 137
  | .Arbitrum => 42161
  | .Optimism => 10
  | .Avalanche => 43114
  | .Base => 8453
  | .Custom _ c => c

/-- `Network::all`: the nine predefined networks. -/
def Network.all : List Network :=
  [.Mainnet, .Sepolia, .Goerli, .BinanceSmartChain, .Polygon,
   .Arbitrum, .Optimism, .Avalanche, .Base]

/-- `Network::from_chain_id`: a match on the nine literal chain ids. -/
def Network.from_chain_id (chain_id : Nat) : Option Network :=
  if chain_id = 1 then some .Mainnet
  else if chain_id = 5 then some .Goerli
  else if chain_id = 10 then some .Optimism
  else if chain_id = 56 then some .BinanceSmartChain
  else if chain_id = 137 then some .Polygon
  else if chain_id = 8453 then some .Base
  else if chain_id = 42161 then some .Arbitrum
  else if chain_id = 43114 then some .Avalanche
  else if chain_id = 11155111 then some .Sepolia
  else none

/-! ## Proofs about the hex codec (claim C7) -/

theorem hex_nibble_roundtrip_hi : ∀ n < 16, hex_char_to_nibble (HEX_CHARS.getD n '0') = .ok n := by
  decide

theorem byte_nibble_split : ∀ b < 256, (((b >>> 4) <<< 4) ||| (b &&& 0x0f)) = b := by
  decide

theorem decode_hex_pairs_flatten :
    ∀ (b : List Nat), (∀ x ∈ b, x < 256) →
      decode_hex_pairs
        ((b.map (fun x => [HEX_CHARS.getD (x >>> 4) '0', HEX_CHARS.getD (x &&& 0x0f) '0'])).flatten)
        = .ok b
  | [], _ => rfl
  | x :: xs, h => by
    have hx : x < 256 := h x (by simp)
    have hhi : x >>> 4 < 16 := by
      rw [Nat.shiftRight_eq_div_pow]
      omega
    have hlo : x &&& 0x0f < 16 := by
      have := Nat.and_le_right (n := x) (m := 0x0f)
      omega
    have h1 := hex_nibble_roundtrip_hi (x >>> 4) hhi
    have h2 := hex_nibble_roundtrip_hi (x &&& 0x0f) hlo
    have ih := decode_hex_pairs_flatten xs (fun y hy => h y (by simp [hy]))
    simp only [List.map_cons, List.flatten_cons, List.cons_append, List.nil_append]
    show decode_hex_pairs (_ :: _ :: _) = _
    rw [decode_hex_pairs]
    rw [h1, h2, ih]
    show Except.ok ((((x >>> 4) <<< 4) ||| (x &&& 0x0f)) :: xs) = Except.ok (x :: xs)
    rw [byte_nibble_split x hx]

theorem hex_nibble_ok_of_isHexChar (c : Char) (h : isHexChar c = true) :
    ∃ n, hex_char_to_nibble c = .ok n := by
  simp only [isHexChar, decide_eq_true_eq] at h
  unfold hex_char_to_nibble
  rcases h with h | h | h
  · rw [if_pos h]; exact ⟨_, rfl⟩
  · by_cases h1 : ('0' ≤ c ∧ c ≤ '9')
    · rw [if_pos h1]; exact ⟨_, rfl⟩
    · rw [if_neg h1, if_pos h]; exact ⟨_, rfl⟩
  · by_cases h1 : ('0' ≤ c ∧ c ≤ '9')
    · rw [if_pos h1]; exact ⟨_, rfl⟩
    · by_cases h2 : ('a' ≤ c ∧ c ≤ 'f')
      · rw [if_neg h1, if_pos h2]; exact ⟨_, rfl⟩
      · rw [if_neg h1, if_neg h2, if_pos h]; exact ⟨_, rfl⟩

theorem hex_nibble_err_of_not_isHexChar (c : Char) (h : ¬ isHexChar c = true) :
    hex_char_to_nibble c = .error .InvalidEncoding := by
  simp only [isHexChar, decide_eq_true_eq] at h
  unfold hex_char_to_nibble
  rw [if_neg (fun hc => h (Or.inl hc)), if_neg (fun hc => h (Or.inr (Or.inl hc))),
    if_neg (fun hc => h (Or.inr (Or.inr hc)))]

theorem decode_hex_pairs_ok :
    ∀ (cs : List Char), cs.length % 2 = 0 → (∀ c ∈ cs, isHexChar c) →
      ∃ bs, decode_hex_pairs cs = .ok bs
  | [], _, _ => ⟨[], rfl⟩
  | [c], h, _ => by simp at h
  | c1 :: c2 :: rest, h, hall => by
    obtain ⟨n1, h1⟩ := hex_nibble_ok_of_isHexChar c1 (hall c1 (by simp))
    obtain ⟨n2, h2⟩ := hex_nibble_ok_of_isHexChar c2 (hall c2 (by simp))
    obtain ⟨bs, hbs⟩ := decode_hex_pairs_ok rest
      (by simp only [List.length_cons] at h ⊢; omega)
      (fun c hc => hall c (by simp [hc]))
    refine ⟨((n1 <<< 4) ||| n2) :: bs, ?_⟩
    rw [decode_hex_pairs, h1, h2, hbs]
    rfl

theorem decode_hex_pairs_err :
    ∀ (cs : List Char), (∃ c ∈ cs, ¬ isHexChar c) →
      decode_hex_pairs cs = .error .InvalidEncoding
  | [], h => by simp at h
  | [c], _ => rfl
  | c1 :: c2 :: rest, h => by
    rw [decode_hex_pairs]
    by_cases hc1 : isHexChar c1
    · obtain ⟨n1, h1⟩ := hex_nibble_ok_of_isHexChar c1 hc1
      rw [h1]
      by_cases hc2 : isHexChar c2
      · obtain ⟨n2, h2⟩ := hex_nibble_ok_of_isHexChar c2 hc2
        rw [h2]
        have : ∃ c ∈ rest, ¬ isHexChar c := by
          obtain ⟨c, hc, hbad⟩ := h
          simp only [List.mem_cons] at hc
          rcases hc with rfl | rfl | hc
          · exact absurd hc1 hbad
          · exact absurd hc2 hbad
          · exact ⟨c, hc, hbad⟩
        rw [decode_hex_pairs_err rest this]
        rfl
      · rw [hex_nibble_err_of_not_isHexChar c2 hc2]
        rfl
    · rw [hex_nibble_err_of_not_isHexChar c1 hc1]
      rfl

theorem hex_chars_getD_mem (n : Nat) : HEX_CHARS.getD n '0' ∈ HEX_CHARS := by
  by_cases h : n < 16
  · interval_cases n <;> decide
  · rw [List.getD_eq_default]
    · decide
    · simpa [HEX_CHARS] using Nat.le_of_not_lt h

theorem to_hex_chars_mem (b : List Nat) : ∀ c ∈ (to_hex b).data, c ∈ HEX_CHARS := by
  intro c hc
  simp only [to_hex, List.mem_flatten, List.mem_map] at hc
  obtain ⟨l, ⟨x, _, rfl⟩, hcl⟩ := hc
  simp only [List.mem_cons, List.not_mem_nil, or_false] at hcl
  rcases hcl with rfl | rfl
  · exact hex_chars_getD_mem _
  · exact hex_chars_getD_mem _

theorem to_hex_data_length (b : List Nat) : (to_hex b).data.length = 2 * b.length := by
  induction b with
  | nil => rfl
  | cons x xs ih =>
    simp only [to_hex, List.map_cons, List.flatten_cons] at ih ⊢
    simp only [List.length_append, List.length_cons, List.length_nil] at ih ⊢
    omega

theorem strip0x_to_hex (b : List Nat) : strip0x ((to_hex b).data) = (to_hex b).data := by
  unfold strip0x
  cases b with
  | nil => rfl
  | cons x xs =>
    rw [if_neg]
    intro hc
    simp only [to_hex, List.map_cons, List.flatten_cons, List.cons_append] at hc
    simp at hc
    have hmem := hex_chars_getD_mem (x &&& 0x0f)
    rw [List.getD_eq_getElem?_getD, hc.2] at hmem
    simp [HEX_CHARS] at hmem

theorem from_hex_eq (s : String) :
    from_hex s = if (strip0x s.data).length % 2 ≠ 0 then .error .InvalidEncoding
      else decode_hex_pairs (strip0x s.data) := rfl

theorem C7_hex_codec (b : List Nat) (s : String) (hb : ∀ x ∈ b, x < 256) :
    (∀ c ∈ (to_hex b).data, c ∈ HEX_CHARS) ∧
    from_hex (to_hex b) = .ok b ∧
    ((strip0x s.data).length % 2 = 1 → from_hex s = .error .InvalidEncoding) ∧
    ((∃ c ∈ strip0x s.data, ¬ isHexChar c) → from_hex s = .error .InvalidEncoding) ∧
    ((strip0x s.data).length % 2 = 0 → (∀ c ∈ strip0x s.data, isHexChar c) →
      ∃ bs, from_hex s = .ok bs) := by
  refine ⟨to_hex_chars_mem b, ?_, ?_, ?_, ?_⟩
  · rw [from_hex_eq, strip0x_to_hex, to_hex_data_length, if_neg (by omega)]
    exact decode_hex_pairs_flatten b hb
  · intro hodd
    rw [from_hex_eq, if_pos (by omega)]
  · intro hbad
    rw [from_hex_eq]
    by_cases hpar : (strip0x s.data).length % 2 ≠ 0
    · rw [if_pos hpar]
    · rw [if_neg hpar]
      exact decode_hex_pairs_err _ hbad
  · intro hpar hall
    rw [from_hex_eq, if_neg (by omega)]
    exact decode_hex_pairs_ok _ hpar hall

theorem C7_witness :
    ((∀ x ∈ ([222, 173, 190, 239] : List Nat), x < 256) ∧
      from_hex (to_hex [222, 173, 190, 239]) = .ok [222, 173, 190, 239]) ∧
    from_hex (String.mk ['0', 'x', 'z', 'z']) = .error .InvalidEncoding := by
  refine ⟨⟨by decide, (C7_hex_codec [222, 173, 190, 239] (String.mk ['0','x','z','z']) (by decide)).2.1⟩, ?_⟩
  exact (C7_hex_codec [222, 173, 190, 239] (String.mk ['0','x','z','z'])
    (by decide)).2.2.2.1 ⟨'z', by decide, by decide⟩



/-! ## Claim C10: wordlist index bound -/

/-- C10: for every language and every index ≥ 2048, `Language::get_word`
returns `None`, whatever the (external) wordlist tables contain, so a caller
mapping 11-bit groups can never observe an out-of-range lookup succeed. -/
theorem C10_get_word_out_of_range (lines : Language → List String) (lang : Language)
    (index : Nat) (h : 2048 ≤ index) :
    Language.get_word lines lang index = none := by
  unfold Language.get_word
  rw [if_pos h]

/-- Witness for C10 at a concrete language, table and index. -/
theorem C10_witness :
    2048 ≤ 5000 ∧ Language.get_word (fun _ => []) Language.English 5000 = none :=
  ⟨by decide, C10_get_word_out_of_range (fun _ => []) Language.English 5000 (by decide)⟩

/-! ## Claim C9: Ethereum network chain-id round-trip -/

/-- C9: every predefined network round-trips through its chain id, and
`from_chain_id` returns `None` on every `u64` that is not the chain id of a
predefined network. -/
theorem C9_network_chain_id_roundtrip :
    (∀ n ∈ Network.all, Network.from_chain_id n.chain_id = some n) ∧
    (∀ c : Nat, c < 2 ^ 64 → (∀ n ∈ Network.all, c ≠ n.chain_id) →
      Network.from_chain_id c = none) := by
  constructor
  · decide
  · intro c _ h
    unfold Network.from_chain_id
    split_ifs with h1 h2 h3 h4 h5 h6 h7 h8 h9
    · exact absurd h1 (h .Mainnet (by decide))
    · exact absurd h2 (h .Goerli (by decide))
    · exact absurd h3 (h .Optimism (by decide))
    · exact absurd h4 (h .BinanceSmartChain (by decide))
    · exact absurd h5 (h .Polygon (by decide))
    · exact absurd h6 (h .Base (by decide))
    · exact absurd h7 (h .Arbitrum (by decide))
    · exact absurd h8 (h .Avalanche (by decide))
    · exact absurd h9 (h .Sepolia (by decide))
    · rfl

/-- Witness for C9: both conjuncts applied at concrete inputs. -/
theorem C9_witness :
    Network.from_chain_id (Network.chain_id .Polygon) = some Network.Polygon ∧
    Network.from_chain_id 2 = none :=
  ⟨C9_network_chain_id_roundtrip.1 .Polygon (by decide),
   C9_network_chain_id_roundtrip.2 2 (by decide) (by decide)⟩

/-! ## Key and signature types (src/kobe-btc, src/kobe-eth) -/

/-- An affine secp256k1 point, the value content of a k256 `VerifyingKey`
(whose derived equality is point equality). -/
structure Point where
  x : Nat
  y : Nat
  deriving DecidableEq, Repr

/-- `kobe::Signature`: `r` and `s` are 32-byte arrays, `v` a `u8`. -/
structure Signature where
  r : List Nat
  s : List Nat
  v : Nat
  deriving DecidableEq, Repr

/-- The secp256k1 group order `n`. -/
def secp256k1_n : Nat :=
  0xFFFFFFFFFFFFFFFFFFFFFFFFFFFFFFFEBAAEDCE6AF48A03BBFD25E8CD0364141

/-- The secp256k1 base field prime `p`. -/
def secp256k1_p : Nat :=
  0xFFFFFFFFFFFFFFFFFFFFFFFFFFFFFFFFFFFFFFFFFFFFFFFFFFFFFFFEFFFFFC2F

/-- Big-endian byte-sequence value. -/
def beNat (l : List Nat) : Nat := l.foldl (fun acc b => acc * 256 + b) 0

/-- k256 `ecdsa::Signature::from_slice` applied to `r ‖ s` (64 bytes): both
halves must be canonical nonzero scalars (1 ≤ r, s < n).  External
collaborator, embedded per the crate's documented contract. -/
def k256_signature_from_slice (r s : List Nat) : Option (Nat × Nat) :=
  let rn := beNat r
  let sn := beNat s
  if rn = 0 ∨ secp256k1_n ≤ rn then none
  else if sn = 0 ∨ secp256k1_n ≤ sn then none
  else some (rn, sn)

/-- k256 `ecdsa::RecoveryId::from_byte`: accepts exactly the bytes 0..=3. -/
def RecoveryId.from_byte (v : Nat) : Option Nat :=
  if v ≤ 3 then some v else none

/-- `BtcPublicKey` (src/kobe-btc/src/public_key.rs): a curve point plus the
compressed/uncompressed display preference.  `derive(PartialEq, Eq)` in the
source compares both fields, which the derived `DecidableEq` mirrors. -/
structure BtcPublicKey where
  inner : Point
  compressed : Bool
  deriving DecidableEq, Repr

/-- `EthPublicKey` (src/kobe-eth/src/public_key.rs): just the point. -/
structure EthPublicKey where
  inner : Point
  deriving DecidableEq, Repr

/-- `BtcPublicKey::recover_from_prehash`.  The elliptic-curve recovery
itself — k256 `VerifyingKey::recover_from_prehash` — is raw point
arithmetic, an external collaborator outside this spec's scope, so it is
passed in as `vk_recover : hash → (r, s) → recid → Option Point`; the
source's control flow around it is embedded exactly: a malformed `r ‖ s`
slice, a recovery id byte outside 0..=3, and a failing recovery each yield
`Error::InvalidSignature`. -/
def BtcPublicKey.recover_from_prehash
    (vk_recover : List Nat → Nat × Nat → Nat → Option Point)
    (hash : List Nat) (signature : Signature) (compressed : Bool) :
    Except Error BtcPublicKey :=
  match k256_signature_from_slice signature.r signature.s with
  | none => .error .InvalidSignature
  | some sig =>
    match RecoveryId.from_byte signature.v with
    | none => .error .InvalidSignature
    | some recid =>
      match vk_recover hash sig recid with
      | none => .error .InvalidSignature
      | some pt => .ok { inner := pt, compressed := compressed }

/-- `EthPublicKey::recover_from_prehash`: same control flow, no display
preference. -/
def EthPublicKey.recover_from_prehash
    (vk_recover : List Nat → Nat × Nat → Nat → Option Point)
    (hash : List Nat) (signature : Signature) :
    Except Error EthPublicKey :=
  match k256_signature_from_slice signature.r signature.s with
  | none => .error .InvalidSignature
  | some sig =>
    match RecoveryId.from_byte signature.v with
    | none => .error .InvalidSignature
    | some recid =>
      match vk_recover hash sig recid with
      | none => .error .InvalidSignature
      | some pt => .ok { inner := pt }

/-! ## Claim C4: recovery rejects out-of-range recovery ids -/

/-- C4: for every hash and every signature whose `v` is not in {0,1,2,3},
both recovery implementations return `InvalidSignature`, whatever the
underlying curve recovery would do. -/
theorem C4_recover_rejects_bad_recid
    (vk_recover : List Nat → Nat × Nat → Nat → Option Point)
    (hash : List Nat) (signature : Signature) (compressed : Bool)
    (hv : signature.v ∉ ([0, 1, 2, 3] : List Nat)) :
    BtcPublicKey.recover_from_prehash vk_recover hash signature compressed
        = .error .InvalidSignature ∧
    EthPublicKey.recover_from_prehash vk_recover hash signature
        = .error .InvalidSignature := by
  have hrec : RecoveryId.from_byte signature.v = none := by
    unfold RecoveryId.from_byte
    rw [if_neg]
    intro hle
    interval_cases h : signature.v <;> simp_all
  constructor
  · unfold BtcPublicKey.recover_from_prehash
    cases k256_signature_from_slice signature.r signature.s with
    | none => rfl
    | some sig => rw [hrec]
  · unfold EthPublicKey.recover_from_prehash
    cases k256_signature_from_slice signature.r signature.s with
    | none => rfl
    | some sig => rw [hrec]

/-- Witness for C4 at `v = 4` with a concrete recovery oracle that would
happily return a point. -/
theorem C4_witness :
    (4 : Nat) ∉ ([0, 1, 2, 3] : List Nat) ∧
    BtcPublicKey.recover_from_prehash (fun _ _ _ => some ⟨1, 2⟩)
        (List.replicate 32 0) ⟨List.replicate 32 1, List.replicate 32 1, 4⟩ true
      = .error .InvalidSignature ∧
    EthPublicKey.recover_from_prehash (fun _ _ _ => some ⟨1, 2⟩)
        (List.replicate 32 0) ⟨List.replicate 32 1, List.replicate 32 1, 4⟩
      = .error .InvalidSignature :=
  ⟨by decide,
   (C4_recover_rejects_bad_recid (fun _ _ _ => some ⟨1, 2⟩) (List.replicate 32 0)
     ⟨List.replicate 32 1, List.replicate 32 1, 4⟩ true (by decide)).1,
   (C4_recover_rejects_bad_recid (fun _ _ _ => some ⟨1, 2⟩) (List.replicate 32 0)
     ⟨List.replicate 32 1, List.replicate 32 1, 4⟩ true (by decide)).2⟩

/-! ## SEC1 point parsing (k256 `VerifyingKey::from_sec1_bytes`, an external
collaborator embedded per SEC1 for secp256k1) -/

/-- Square-and-multiply modular exponentiation, with the exponent doubling as
its own structural fuel (`e / 2` strictly decreases while positive, and
`e` iterations always suffice). -/
def powModAux (m : Nat) : Nat → Nat → Nat → Nat
  | _, _, 0 => 1 % m
  | _, 0, _+1 => 0
  | b, fuel+1, e+1 =>
    let h := powModAux m ((b * b) % m) fuel ((e+1) / 2)
    if (e+1) % 2 = 1 then (h * b) % m else h

/-- `b ^ e mod m`. -/
def powMod (m b e : Nat) : Nat := powModAux m (b % m) e e

/-- Decompression of an x-coordinate: `y² = x³ + 7 (mod p)`; since
`p ≡ 3 (mod 4)` the candidate root is `(x³+7)^((p+1)/4)`, rejected when it
does not square back (x not on the curve), then matched to the requested
parity. -/
def lift_x (x : Nat) (y_is_odd : Bool) : Option Point :=
  if secp256k1_p ≤ x then none
  else
    let a := (powMod secp256k1_p x 3 + 7) % secp256k1_p
    let y := powMod secp256k1_p a ((secp256k1_p + 1) / 4)
    if (y * y) % secp256k1_p ≠ a then none
    else some ⟨x, if (decide (y % 2 = 1)) = y_is_odd then y else (secp256k1_p - y) % secp256k1_p⟩

/-- SEC1 parsing: tag 2/3 = compressed (32-byte x, even/odd y), tag 4 =
uncompressed (x and y, checked to lie on the curve). -/
def k256_from_sec1_bytes (bytes : List Nat) : Option Point :=
  match bytes with
  | 2 :: rest => if rest.length = 32 then lift_x (beNat rest) false else none
  | 3 :: rest => if rest.length = 32 then lift_x (beNat rest) true else none
  | 4 :: rest =>
    if rest.length = 64 then
      let x := beNat (rest.take 32)
      let y := beNat (rest.drop 32)
      if x < secp256k1_p ∧ y < secp256k1_p ∧
          (y * y) % secp256k1_p = (powMod secp256k1_p x 3 + 7) % secp256k1_p
      then some ⟨x, y⟩ else none
    else none
  | _ => none

/-- Fixed-width big-endian bytes of a number. -/
def natToBytesBE (len n : Nat) : List Nat :=
  (List.range len).reverse.map (fun i => n / 256 ^ i % 256)

/-- `BtcPublicKey::from_compressed_bytes`: exactly 33 bytes, else
`InvalidLength`; parse failure is `InvalidPublicKey`; display preference is
set to compressed. -/
def BtcPublicKey.from_compressed_bytes (bytes : List Nat) : Except Error BtcPublicKey :=
  if bytes.length ≠ 33 then .error (.InvalidLength 33 bytes.length)
  else match k256_from_sec1_bytes bytes with
    | none => .error .InvalidPublicKey
    | some pt => .ok { inner := pt, compressed := true }

/-- `BtcPublicKey::from_uncompressed_bytes`: exactly 65 bytes; display
preference is set to uncompressed. -/
def BtcPublicKey.from_uncompressed_bytes (bytes : List Nat) : Except Error BtcPublicKey :=
  if bytes.length ≠ 65 then .error (.InvalidLength 65 bytes.length)
  else match k256_from_sec1_bytes bytes with
    | none => .error .InvalidPublicKey
    | some pt => .ok { inner := pt, compressed := false }

/-! ## Claim C2: public key equality versus display preference -/

/-- x-coordinate of the secp256k1 generator. -/
def gX : Nat := 0x79BE667EF9DCBBAC55A06295CE870B07029BFCDB2DCE28D959F2815B16F81798

/-- y-coordinate of the secp256k1 generator (even). -/
def gY : Nat := 0x483ADA7726A3C4655DA4FBFC0E1108A8FD17B448A68554199C47D08FFB10D4B8

/-- SEC1 compressed encoding of the generator. -/
def gCompressedBytes : List Nat := 2 :: natToBytesBE 32 gX

/-- SEC1 uncompressed encoding of the generator. -/
def gUncompressedBytes : List Nat := 4 :: (natToBytesBE 32 gX ++ natToBytesBE 32 gY)

/-- Counterexample to C2: the compressed and uncompressed encodings of the
generator parse to the same curve point, yet the two `BtcPublicKey` values
compare unequal, because the derived equality also compares the
`compressed` display flag. -/
theorem C2_counterexample :
    (BtcPublicKey.from_compressed_bytes gCompressedBytes).map BtcPublicKey.inner
      = (BtcPublicKey.from_uncompressed_bytes gUncompressedBytes).map BtcPublicKey.inner
    ∧ BtcPublicKey.from_compressed_bytes gCompressedBytes
        ≠ BtcPublicKey.from_uncompressed_bytes gUncompressedBytes :=
  ⟨by decide, by decide⟩

/-- C2 (amended): `BtcPublicKey` equality compares the curve point together
with the compressed/uncompressed display preference, so a key built by
`from_compressed_bytes` never equals one built by `from_uncompressed_bytes`,
even when both hold the same point. -/
theorem C2_eq_includes_display_preference (bc bu : List Nat) (k1 k2 : BtcPublicKey)
    (h1 : BtcPublicKey.from_compressed_bytes bc = .ok k1)
    (h2 : BtcPublicKey.from_uncompressed_bytes bu = .ok k2) :
    k1.compressed = true ∧ k2.compressed = false ∧ k1 ≠ k2 := by
  have hc1 : k1.compressed = true := by
    unfold BtcPublicKey.from_compressed_bytes at h1
    split at h1
    · cases h1
    · split at h1
      · cases h1
      · cases h1; rfl
  have hc2 : k2.compressed = false := by
    unfold BtcPublicKey.from_uncompressed_bytes at h2
    split at h2
    · cases h2
    · split at h2
      · cases h2
      · cases h2; rfl
  refine ⟨hc1, hc2, ?_⟩
  intro he
  rw [he, hc2] at hc1
  cases hc1

/-- Witness for C2 (amended) at the generator point. -/
theorem C2_witness :
    BtcPublicKey.from_compressed_bytes gCompressedBytes
        = .ok { inner := ⟨gX, gY⟩, compressed := true } ∧
    ({ inner := ⟨gX, gY⟩, compressed := true } : BtcPublicKey)
        ≠ { inner := ⟨gX, gY⟩, compressed := false } :=
  ⟨by decide,
   (C2_eq_includes_display_preference gCompressedBytes gUncompressedBytes
      { inner := ⟨gX, gY⟩, compressed := true }
      { inner := ⟨gX, gY⟩, compressed := false }
      (by decide) (by decide)).2.2⟩

/-! ## SHA-256 (sha2 crate, external collaborator embedded per FIPS 180-4;
`double_sha256` from src/kobe/src/hash.rs) -/

def rotr32 (x n : Nat) : Nat := ((x >>> n) ||| (x <<< (32 - n))) % 2 ^ 32

def sha256_K : List Nat :=
  [1116352408, 1899447441, 3049323471, 3921009573, 961987163, 1508970993,
   2453635748, 2870763221, 3624381080, 310598401, 607225278, 1426881987,
   1925078388, 2162078206, 2614888103, 3248222580, 3835390401, 4022224774,
   264347078, 604807628, 770255983, 1249150122, 1555081692, 1996064986,
   2554220882, 2821834349, 2952996808, 3210313671, 3336571891, 3584528711,
   113926993, 338241895, 666307205, 773529912, 1294757372, 1396182291,
   1695183700, 1986661051, 2177026350, 2456956037, 2730485921, 2820302411,
   3259730800, 3345764771, 3516065817, 3600352804, 4094571909, 275423344,
   430227734, 506948616, 659060556, 883997877, 958139571, 1322822218,
   1537002063, 1747873779, 1955562222, 2024104815, 2227730452, 2361852424,
   2428436474, 2756734187, 3204031479, 3329325298]

def sha256_H0 : List Nat :=
  [1779033703, 3144134277, 1013904242, 2773480762,
   1359893119, 2600822924, 528734635, 1541459225]

def sha256_pad (msg : List Nat) : List Nat :=
  let z := (119 - msg.length % 64) % 64
  msg ++ [0x80] ++ List.replicate z 0 ++ natToBytesBE 8 (8 * msg.length % 2 ^ 64)

def bytesToWords32 (block : List Nat) : List Nat :=
  (List.range 16).map (fun i => beNat ((block.drop (4 * i)).take 4))

def ssig0 (x : Nat) : Nat := rotr32 x 7 ^^^ rotr32 x 18 ^^^ (x >>> 3)
def ssig1 (x : Nat) : Nat := rotr32 x 17 ^^^ rotr32 x 19 ^^^ (x >>> 10)

def sha256_extend : Nat → List Nat → List Nat
  | 0, ws => ws
  | n+1, ws =>
    let i := ws.length
    let w := (ssig1 (ws.getD (i - 2) 0) + ws.getD (i - 7) 0 + ssig0 (ws.getD (i - 15) 0)
      + ws.getD (i - 16) 0) % 2 ^ 32
    sha256_extend n (ws ++ [w])

def sha256_round (st : List Nat) (k w : Nat) : List Nat :=
  let a := st.getD 0 0
  let b := st.getD 1 0
  let c := st.getD 2 0
  let d := st.getD 3 0
  let e := st.getD 4 0
  let f := st.getD 5 0
  let g := st.getD 6 0
  let h := st.getD 7 0
  let bsig1 := rotr32 e 6 ^^^ rotr32 e 11 ^^^ rotr32 e 25
  let ch := (e &&& f) ^^^ ((e ^^^ 0xffffffff) &&& g)
  let t1 := (h + bsig1 + ch + k + w) % 2 ^ 32
  let bsig0 := rotr32 a 2 ^^^ rotr32 a 13 ^^^ rotr32 a 22
  let maj := (a &&& b) ^^^ (a &&& c) ^^^ (b &&& c)
  let t2 := (bsig0 + maj) % 2 ^ 32
  [(t1 + t2) % 2 ^ 32, a, b, c, (d + t1) % 2 ^ 32, e, f, g]

def sha256_rounds : List (Nat × Nat) → List Nat → List Nat
  | [], st => st
  | kw :: rest, st => sha256_rounds rest (sha256_round st kw.1 kw.2)

def sha256_block (st block : List Nat) : List Nat :=
  let ws := sha256_extend 48 (bytesToWords32 block)
  let st2 := sha256_rounds (sha256_K.zip ws) st
  (List.range 8).map (fun i => (st.getD i 0 + st2.getD i 0) % 2 ^ 32)

def sha256_blocksAux : Nat → List Nat → List Nat → List Nat
  | 0, st, _ => st
  | n+1, st, msg => sha256_blocksAux n (sha256_block st (msg.take 64)) (msg.drop 64)

def sha256 (msg : List Nat) : List Nat :=
  let padded := sha256_pad msg
  ((sha256_blocksAux (padded.length / 64) sha256_H0 padded).map (natToBytesBE 4)).flatten

def double_sha256 (msg : List Nat) : List Nat := sha256 (sha256 msg)

/-! ## Base58 (bs58 crate, external collaborator embedded by the standard
big-integer algorithm: one output character per leading zero byte, then the
base-58 digits of the big-endian value) -/

def BS58_ALPHABET : List Char :=
  ("123456789ABCDEFGHJKLMNPQRSTUVWXYZabcdefghijkmnopqrstuvwxyz").data

def natToDigitsAux (b : Nat) : Nat → Nat → List Nat
  | 0, _ => []
  | _+1, 0 => []
  | fuel+1, n+1 => ((n+1) % b) :: natToDigitsAux b fuel ((n+1) / b)

def natDigitsLE (b n : Nat) : List Nat := natToDigitsAux b n n

def countLeading {α : Type} (p : α → Prop) [DecidablePred p] : List α → Nat
  | [] => 0
  | x :: xs => if p x then countLeading p xs + 1 else 0

def bs58_encode (data : List Nat) : String :=
  let zeros := countLeading (fun b => b = 0) data
  String.mk (List.replicate zeros '1' ++
    (natDigitsLE 58 (beNat data)).reverse.map (fun d => BS58_ALPHABET.getD d ' '))

def bs58_char_value (c : Char) : Option Nat := BS58_ALPHABET.findIdx? (fun x => x = c)

def bs58_char_values : List Char → Option (List Nat)
  | [] => some []
  | c :: cs =>
    match bs58_char_value c, bs58_char_values cs with
    | some v, some vs => some (v :: vs)
    | _, _ => none

def bs58_decode (s : String) : Option (List Nat) :=
  match bs58_char_values s.data with
  | none => none
  | some vals =>
    let zeros := countLeading (fun c => c = '1') s.data
    let n := vals.foldl (fun acc v => acc * 58 + v) 0
    some (List.replicate zeros 0 ++ (natDigitsLE 256 n).reverse)

-- bridge natDigitsLE = Nat.digits
theorem natToDigitsAux_eq (b : Nat) (hb : 2 ≤ b) :
    ∀ fuel n, n ≤ fuel → natToDigitsAux b fuel n = Nat.digits b n
  | 0, 0, _ => by simp [natToDigitsAux]
  | 0, n+1, h => by omega
  | fuel+1, 0, _ => by simp [natToDigitsAux]
  | fuel+1, n+1, h => by
    rw [natToDigitsAux, Nat.digits_def' (by omega : 1 < b) (Nat.succ_pos n)]
    congr 1
    exact natToDigitsAux_eq b hb fuel ((n+1)/b)
      (by
        have : (n+1)/b ≤ (n+1)/2 := Nat.div_le_div_left hb (by omega)
        have : (n+1)/2 ≤ fuel := by omega
        omega)

theorem natDigitsLE_eq (b n : Nat) (hb : 2 ≤ b) : natDigitsLE b n = Nat.digits b n :=
  natToDigitsAux_eq b hb n n (Nat.le_refl n)

-- foldl as ofDigits of the reverse
theorem foldl_mul_add (b : Nat) :
    ∀ (l : List Nat) (a0 : Nat),
      l.foldl (fun acc v => acc * b + v) a0 = a0 * b ^ l.length + Nat.ofDigits b l.reverse
  | [], a0 => by simp [Nat.ofDigits_nil]
  | x :: xs, a0 => by
    rw [List.foldl_cons, foldl_mul_add b xs (a0 * b + x)]
    rw [List.reverse_cons, Nat.ofDigits_append, Nat.ofDigits_singleton]
    simp [List.length_cons, List.length_reverse]
    ring

theorem beNat_eq_ofDigits (l : List Nat) : beNat l = Nat.ofDigits 256 l.reverse := by
  rw [beNat, foldl_mul_add]
  simp

theorem countLeading_replicate_append {α : Type} (p : α → Prop) [DecidablePred p]
    (a : α) (hp : p a) (rest : List α) (hrest : ∀ x ∈ rest.take 1, ¬ p x) :
    ∀ z, countLeading p (List.replicate z a ++ rest) = z
  | 0 => by
    cases rest with
    | nil => rfl
    | cons x xs =>
      simp only [List.replicate, List.nil_append, countLeading]
      rw [if_neg (hrest x (by simp))]
  | z+1 => by
    rw [List.replicate_succ, List.cons_append]
    show (if p a then countLeading p (List.replicate z a ++ rest) + 1 else 0) = z + 1
    rw [if_pos hp, countLeading_replicate_append p a hp rest hrest z]

-- decomposition of a list at its leading block of `a`s
theorem countLeading_decomp {α : Type} [DecidableEq α] (a : α) :
    ∀ l : List α,
      l = List.replicate (countLeading (fun y => y = a) l) a
            ++ l.drop (countLeading (fun y => y = a) l) ∧
      (∀ x ∈ (l.drop (countLeading (fun y => y = a) l)).take 1, x ≠ a)
  | [] => by simp [countLeading]
  | x :: xs => by
    by_cases hx : x = a
    · subst hx
      obtain ⟨h1, h2⟩ := countLeading_decomp x xs
      have hc : countLeading (fun y => y = x) (x :: xs)
          = countLeading (fun y => y = x) xs + 1 := by
        show (if x = x then countLeading (fun y => y = x) xs + 1 else 0) = _
        rw [if_pos rfl]
      rw [hc, List.replicate_succ, List.cons_append, List.drop_succ_cons]
      exact ⟨congrArg (x :: ·) h1, h2⟩
    · have hc : countLeading (fun y => y = a) (x :: xs) = 0 := by
        show (if x = a then countLeading (fun y => y = a) xs + 1 else 0) = 0
        rw [if_neg hx]
      rw [hc]
      refine ⟨by simp, ?_⟩
      intro y hy
      simp only [List.drop_zero, List.take_succ_cons, List.take_zero, List.mem_cons,
        List.not_mem_nil, or_false] at hy
      subst hy
      exact hx

theorem bs58_value_one : bs58_char_value '1' = some 0 := by decide

theorem bs58_value_alph : ∀ d < 58, bs58_char_value (BS58_ALPHABET.getD d ' ') = some d := by
  decide

theorem bs58_alph_ne_one : ∀ d < 58, d ≠ 0 → BS58_ALPHABET.getD d ' ' ≠ '1' := by decide

theorem bs58_char_values_append :
    ∀ (l1 l2 : List Char) (v1 v2 : List Nat),
      bs58_char_values l1 = some v1 → bs58_char_values l2 = some v2 →
      bs58_char_values (l1 ++ l2) = some (v1 ++ v2)
  | [], l2, v1, v2, h1, h2 => by
    cases h1
    simpa using h2
  | c :: cs, l2, v1, v2, h1, h2 => by
    rw [bs58_char_values] at h1
    rw [List.cons_append, bs58_char_values]
    cases hv : bs58_char_value c with
    | none => rw [hv] at h1; cases h1
    | some v =>
      rw [hv] at h1
      cases hvs : bs58_char_values cs with
      | none => rw [hvs] at h1; cases h1
      | some vs =>
        rw [hvs] at h1
        cases h1
        rw [bs58_char_values_append cs l2 vs v2 hvs h2]
        rfl

theorem bs58_char_values_replicate_one :
    ∀ z, bs58_char_values (List.replicate z '1') = some (List.replicate z 0)
  | 0 => rfl
  | z+1 => by
    rw [List.replicate_succ, bs58_char_values, bs58_value_one,
      bs58_char_values_replicate_one z, List.replicate_succ]

theorem bs58_char_values_map_alph :
    ∀ l : List Nat, (∀ d ∈ l, d < 58) →
      bs58_char_values (l.map (fun d => BS58_ALPHABET.getD d ' ')) = some l
  | [], _ => rfl
  | d :: ds, h => by
    rw [List.map_cons, bs58_char_values, bs58_value_alph d (h d (by simp)),
      bs58_char_values_map_alph ds (fun x hx => h x (by simp [hx]))]

theorem foldl_mul_add_replicate_zero (b : Nat) :
    ∀ (z : Nat) (l : List Nat),
      (List.replicate z 0 ++ l).foldl (fun acc v => acc * b + v) 0
        = l.foldl (fun acc v => acc * b + v) 0
  | 0, l => rfl
  | z+1, l => by
    rw [List.replicate_succ, List.cons_append, List.foldl_cons]
    have h0 : 0 * b + 0 = 0 := by ring
    rw [h0]
    exact foldl_mul_add_replicate_zero b z l

theorem beNat_cons_pos (x : Nat) (xs : List Nat) (hx : x ≠ 0) : 0 < beNat (x :: xs) := by
  rw [beNat_eq_ofDigits, List.reverse_cons, Nat.ofDigits_append, Nat.ofDigits_singleton]
  have h2 : 0 < 256 ^ xs.reverse.length := Nat.pos_pow_of_pos _ (by omega)
  have : 0 < x := Nat.pos_of_ne_zero hx
  positivity

theorem bs58_roundtrip (data : List Nat) (hd : ∀ x ∈ data, x < 256) :
    bs58_decode (bs58_encode data) = some data := by
  obtain ⟨hdec, hfirst⟩ := countLeading_decomp 0 data
  set z := countLeading (fun y => y = (0 : Nat)) data with hz
  set rest := data.drop z with hrest
  have hdigits58 : ∀ d ∈ Nat.digits 58 (beNat data), d < 58 :=
    fun d hdmem => Nat.digits_lt_base (by omega) hdmem
  have hvals : bs58_char_values (List.replicate z '1' ++
      (Nat.digits 58 (beNat data)).reverse.map (fun d => BS58_ALPHABET.getD d ' '))
      = some (List.replicate z 0 ++ (Nat.digits 58 (beNat data)).reverse) :=
    bs58_char_values_append _ _ _ _ (bs58_char_values_replicate_one z)
      (bs58_char_values_map_alph _ (fun d hdm => hdigits58 d (List.mem_reverse.mp hdm)))
  have hn_rest : beNat data = beNat rest := by
    conv_lhs => rw [hdec]
    exact foldl_mul_add_replicate_zero 256 z rest
  have hcount :
      countLeading (fun c => c = '1') (List.replicate z '1' ++
        (Nat.digits 58 (beNat data)).reverse.map (fun d => BS58_ALPHABET.getD d ' ')) = z := by
    refine countLeading_replicate_append (fun c => c = '1') '1' rfl _ ?_ z
    intro x hx
    cases hrest58 : Nat.digits 58 (beNat data) with
    | nil => rw [hrest58] at hx; simp at hx
    | cons d0 ds =>
      have hne : Nat.digits 58 (beNat data) ≠ [] := by rw [hrest58]; simp
      have hlast := Nat.getLast_digit_ne_zero 58
        (Nat.digits_ne_nil_iff_ne_zero.mp hne)
      set m := (Nat.digits 58 (beNat data)).getLast hne with hm
      have hsplit := (List.dropLast_append_getLast hne).symm
      rw [← hm] at hsplit
      rw [hsplit, List.reverse_append, List.reverse_singleton, List.singleton_append,
        List.map_cons] at hx
      simp only [List.take_succ_cons, List.take_zero, List.mem_cons, List.not_mem_nil,
        or_false] at hx
      subst hx
      exact bs58_alph_ne_one m (Nat.digits_lt_base (by omega) (List.getLast_mem hne)) hlast
  -- unfold decode of encode
  show bs58_decode (String.mk (List.replicate z '1' ++
    (natDigitsLE 58 (beNat data)).reverse.map (fun d => BS58_ALPHABET.getD d ' '))) = some data
  rw [natDigitsLE_eq 58 (beNat data) (by omega)]
  unfold bs58_decode
  rw [show (String.mk (List.replicate z '1' ++
      (Nat.digits 58 (beNat data)).reverse.map (fun d => BS58_ALPHABET.getD d ' '))).data
    = List.replicate z '1' ++
      (Nat.digits 58 (beNat data)).reverse.map (fun d => BS58_ALPHABET.getD d ' ') from rfl]
  rw [hvals]
  dsimp only
  rw [hcount]
  have hfold : (List.replicate z 0 ++ (Nat.digits 58 (beNat data)).reverse).foldl
      (fun acc v => acc * 58 + v) 0 = beNat data := by
    rw [foldl_mul_add_replicate_zero, foldl_mul_add, List.reverse_reverse]
    simp [Nat.ofDigits_digits]
  rw [hfold]
  -- now show the reconstructed bytes equal data
  rw [natDigitsLE_eq 256 (beNat data) (by omega)]
  cases hrc : rest with
  | nil =>
    have hdata : data = List.replicate z 0 := by
      conv_lhs => rw [hdec]
      rw [hrc, List.append_nil]
    have hzero : beNat data = 0 := by
      rw [hn_rest, hrc]
      rfl
    rw [hzero]
    simp only [Nat.digits_zero, List.reverse_nil, List.append_nil]
    exact congrArg some hdata.symm
  | cons r rs =>
    have hrne : r ≠ 0 := by
      have := hfirst r (by rw [hrc]; simp)
      exact this
    have hpos : beNat data ≠ 0 := by
      rw [hn_rest, hrc]
      exact Nat.pos_iff_ne_zero.mp (beNat_cons_pos r rs hrne)
    have hrest_lt : ∀ x ∈ rest.reverse, x < 256 := by
      intro x hx
      exact hd x (List.drop_subset z data (List.mem_reverse.mp hx))
    have hlast_ne : ∀ h : rest.reverse ≠ [], rest.reverse.getLast h ≠ 0 := by
      intro h
      have h1 : rest.reverse.getLast? = some (rest.reverse.getLast h) :=
        List.getLast?_eq_getLast _ h
      have h2 : rest.reverse.getLast? = some r := by
        rw [hrc, List.reverse_cons]
        exact List.getLast?_concat _
      rw [h1] at h2
      have := Option.some.inj h2
      rw [this]
      exact hrne
    have hdig : Nat.digits 256 (beNat data) = rest.reverse := by
      rw [hn_rest, beNat_eq_ofDigits]
      exact Nat.digits_ofDigits 256 (by omega) rest.reverse hrest_lt hlast_ne
    rw [hdig, List.reverse_reverse]
    exact congrArg some hdec.symm

/-! ## Base58Check (src/kobe/src/encoding.rs) and claim C3 -/

/-- `base58check_encode`: `Base58(version ‖ payload ‖ double_sha256(version ‖ payload)[0..4])`. -/
def base58check_encode (version payload : List Nat) : String :=
  let data := version ++ payload
  let checksum := double_sha256 data
  bs58_encode (data ++ checksum.take 4)

/-- `base58check_decode`: base58-decode (failure is `InvalidEncoding`),
require at least 5 bytes (`InvalidLength`), recompute the checksum over all
but the last 4 bytes (`InvalidChecksum` on mismatch), then split off the
first byte as the version ("Assume first byte is version" in the source). -/
def base58check_decode (encoded : String) : Except Error (List Nat × List Nat) :=
  match bs58_decode encoded with
  | none => .error .InvalidEncoding
  | some data =>
    if data.length < 5 then .error (.InvalidLength 5 data.length)
    else if data.drop (data.length - 4) ≠ (double_sha256 (data.take (data.length - 4))).take 4
      then .error .InvalidChecksum
    else .ok ((data.take (data.length - 4)).take 1, (data.take (data.length - 4)).drop 1)

theorem natToBytesBE_length (k n : Nat) : (natToBytesBE k n).length = k := by
  simp [natToBytesBE]

theorem natToBytesBE_lt (k n : Nat) : ∀ x ∈ natToBytesBE k n, x < 256 := by
  intro x hx
  simp only [natToBytesBE, List.mem_map] at hx
  obtain ⟨i, _, rfl⟩ := hx
  exact Nat.mod_lt _ (by omega)

theorem sha256_blocksAux_length :
    ∀ (fuel : Nat) (st msg : List Nat), st.length = 8 →
      (sha256_blocksAux fuel st msg).length = 8
  | 0, _, _, h => h
  | n+1, st, msg, _ =>
    sha256_blocksAux_length n _ _ (by simp [sha256_block])

theorem flatten_map_natToBytesBE_length (k : Nat) :
    ∀ l : List Nat, ((l.map (natToBytesBE k)).flatten).length = k * l.length
  | [] => by simp
  | x :: xs => by
    simp only [List.map_cons, List.flatten_cons, List.length_append, natToBytesBE_length,
      flatten_map_natToBytesBE_length k xs, List.length_cons, Nat.mul_succ]
    omega

theorem sha256_length (msg : List Nat) : (sha256 msg).length = 32 := by
  unfold sha256
  rw [flatten_map_natToBytesBE_length, sha256_blocksAux_length _ _ _ (by rfl)]

theorem sha256_bytes_lt (msg : List Nat) : ∀ x ∈ sha256 msg, x < 256 := by
  intro x hx
  unfold sha256 at hx
  simp only [List.mem_flatten, List.mem_map] at hx
  obtain ⟨l, ⟨w, _, rfl⟩, hxl⟩ := hx
  exact natToBytesBE_lt 4 w x hxl

/-- Counterexample to C3: for the two-byte version `[0x04, 0x88]` and empty
payload, decode splits off only the first byte, returning
`([0x04], [0x88])` instead of `([0x04, 0x88], [])`. -/
theorem C3_counterexample :
    base58check_decode (base58check_encode [4, 136] []) = .ok ([4], [136]) ∧
    base58check_decode (base58check_encode [4, 136] []) ≠ .ok ([4, 136], []) := by
  constructor
  · decide
  · decide

/-- C3 (amended): the Base58Check round-trip holds for every single-byte
version and every payload; decode always assigns exactly the first decoded
byte to the version. -/
theorem C3_roundtrip_one_byte_version (v : Nat) (payload : List Nat)
    (hv : v < 256) (hp : ∀ x ∈ payload, x < 256) :
    base58check_decode (base58check_encode [v] payload) = .ok ([v], payload) := by
  have hall : ∀ x ∈ ([v] ++ payload) ++ (double_sha256 ([v] ++ payload)).take 4, x < 256 := by
    intro x hx
    rcases List.mem_append.mp hx with hx | hx
    · rcases List.mem_append.mp hx with hx | hx
      · simp only [List.mem_singleton] at hx
        omega
      · exact hp x hx
    · exact sha256_bytes_lt _ x (List.mem_of_mem_take hx)
  have hdec := bs58_roundtrip _ hall
  have hlen4 : ((double_sha256 ([v] ++ payload)).take 4).length = 4 := by
    rw [List.length_take]
    unfold double_sha256
    rw [sha256_length]
    omega
  have hlen : (([v] ++ payload) ++ (double_sha256 ([v] ++ payload)).take 4).length
      = payload.length + 5 := by
    simp only [List.length_append, List.length_singleton, hlen4]
    omega
  show base58check_decode (bs58_encode (([v] ++ payload)
    ++ (double_sha256 ([v] ++ payload)).take 4)) = _
  unfold base58check_decode
  rw [hdec]
  dsimp only
  rw [if_neg (by rw [hlen]; omega)]
  have hsublen : ([v] ++ payload).length
      = (([v] ++ payload) ++ (double_sha256 ([v] ++ payload)).take 4).length - 4 := by
    simp only [List.length_append, List.length_singleton, hlen4]
    omega
  rw [List.take_left' hsublen, List.drop_left' hsublen]
  rw [if_neg (by intro h; exact h rfl)]
  rfl

/-- Witness for C3 (amended) at a concrete version byte and payload. -/
theorem C3_witness :
    (0 : Nat) < 256 ∧
    base58check_decode (base58check_encode [0] [1, 2]) = .ok ([0], [1, 2]) :=
  ⟨by decide, C3_roundtrip_one_byte_version 0 [1, 2] (by decide) (by decide)⟩

/-! ## Keccak-256 (sha3 crate, external collaborator embedded per the Keccak
reference: 25 little-endian 64-bit lanes, rate 136 bytes, pad 0x01..0x80) -/

def rotl64 (x n : Nat) : Nat := ((x <<< n) ||| (x >>> (64 - n))) % 2 ^ 64

def keccak_RC : List Nat :=
  [1, 32898, 9223372036854808714,
   9223372039002292224, 32907, 2147483649,
   9223372039002292353, 9223372036854808585, 138,
   136, 2147516425, 2147483658,
   2147516555, 9223372036854775947, 9223372036854808713,
   9223372036854808579, 9223372036854808578, 9223372036854775936,
   32778, 9223372039002259466, 9223372039002292353,
   9223372036854808704, 2147483649, 9223372039002292232]

def keccak_rho : List Nat :=
  ([[0, 1, 62, 28, 27], [36, 44, 6, 55, 20], [3, 10, 43, 25, 39],
    [41, 45, 15, 21, 8], [18, 2, 61, 56, 14]]).flatten

def keccak_theta (st : List Nat) : List Nat :=
  let C := (List.range 5).map (fun x =>
    st.getD x 0 ^^^ st.getD (x + 5) 0 ^^^ st.getD (x + 10) 0 ^^^ st.getD (x + 15) 0
      ^^^ st.getD (x + 20) 0)
  let D := (List.range 5).map (fun x =>
    C.getD ((x + 4) % 5) 0 ^^^ rotl64 (C.getD ((x + 1) % 5) 0) 1)
  (List.range 25).map (fun i => st.getD i 0 ^^^ D.getD (i % 5) 0)

def keccak_rho_pi (st : List Nat) : List Nat :=
  (List.range 25).map (fun i =>
    let xp := i % 5
    let yp := i / 5
    let x := (xp + 3 * yp) % 5
    let y := xp
    rotl64 (st.getD (x + 5 * y) 0) (keccak_rho.getD (x + 5 * y) 0))

def keccak_chi (st : List Nat) : List Nat :=
  (List.range 25).map (fun i =>
    let x := i % 5
    let y := i / 5
    st.getD i 0 ^^^
      ((st.getD ((x + 1) % 5 + 5 * y) 0 ^^^ 0xffffffffffffffff) &&& st.getD ((x + 2) % 5 + 5 * y) 0))

def keccak_iota (st : List Nat) (rc : Nat) : List Nat :=
  (List.range 25).map (fun i => if i = 0 then st.getD 0 0 ^^^ rc else st.getD i 0)

def keccak_round (st : List Nat) (rc : Nat) : List Nat :=
  keccak_iota (keccak_chi (keccak_rho_pi (keccak_theta st))) rc

def keccak_f (st : List Nat) : List Nat := keccak_RC.foldl keccak_round st

def leNat (l : List Nat) : Nat := l.foldr (fun b acc => acc * 256 + b) 0

def natToBytesLE (len n : Nat) : List Nat :=
  (List.range len).map (fun i => n / 256 ^ i % 256)

def keccak_pad (msg : List Nat) : List Nat :=
  let padlen := 136 - msg.length % 136
  if padlen = 1 then msg ++ [0x81]
  else msg ++ [0x01] ++ List.replicate (padlen - 2) 0 ++ [0x80]

def keccak_xor_block (st block : List Nat) : List Nat :=
  (List.range 25).map (fun i =>
    st.getD i 0 ^^^ (if i < 17 then leNat ((block.drop (8 * i)).take 8) else 0))

def keccak_absorb : Nat → List Nat → List Nat → List Nat
  | 0, st, _ => st
  | n+1, st, msg => keccak_absorb n (keccak_f (keccak_xor_block st (msg.take 136))) (msg.drop 136)

def keccak256 (msg : List Nat) : List Nat :=
  let padded := keccak_pad msg
  let st := keccak_absorb (padded.length / 136) (List.replicate 25 0) padded
  ((List.range 4).map (fun i => natToBytesLE 8 (st.getD i 0))).flatten

/-! ## EIP-55 checksum address (src/kobe/src/encoding.rs, `eth_checksum_address`)
and claims C5, C8 -/

/-- The per-character body of the loop in `eth_checksum_address`: an
alphabetic hex character is uppercased iff the corresponding hash nibble
(high nibble of `hash[i/2]` for even `i`, low nibble for odd `i`) is ≥ 8;
other characters pass through. -/
def eth_checksum_char (hash : List Nat) (i : Nat) (c : Char) : Char :=
  if c.isAlpha then
    if 8 ≤ (if i % 2 = 0 then hash.getD (i / 2) 0 >>> 4 else hash.getD (i / 2) 0 &&& 0x0f)
    then c.toUpper else c.toLower
  else c

/-- `eth_checksum_address`: lowercase-hex-encode the address, keccak256 the
ASCII bytes of that hex string, then apply `eth_checksum_char` to each
character with its position (`chars().enumerate()` is `List.enum`). -/
def eth_checksum_address (address : List Nat) : String :=
  let hex_addr := to_hex address
  let hash := keccak256 (hex_addr.data.map Char.toNat)
  String.mk ('0' :: 'x' :: (hex_addr.data.enum.map (fun p => eth_checksum_char hash p.1 p.2)))

/-- The EIP-55 test vector address bytes. -/
def eip55TestAddr : List Nat :=
  [0x5a, 0xAe, 0xb6, 0x05, 0x3F, 0x3E, 0x94, 0xC9, 0xb9, 0xA0,
   0x9f, 0x33, 0x66, 0x94, 0x35, 0xE7, 0xEf, 0x1B, 0xeA, 0xed]

theorem enumFrom_map_getD (f : Nat × Char → Char) :
    ∀ (cs : List Char) (k i : Nat), i < cs.length →
      ((List.enumFrom k cs).map f).getD i ' ' = f (k + i, cs.getD i ' ')
  | [], _, _, h => absurd h (by simp)
  | c :: cs, k, 0, _ => by
    simp [List.enumFrom]
  | c :: cs, k, i+1, h => by
    simp only [List.enumFrom, List.map_cons, List.getD_cons_succ]
    rw [enumFrom_map_getD f cs (k+1) i (by simpa using h)]
    have hk : k + 1 + i = k + (i + 1) := by omega
    rw [hk]

/-- C5: for every 20-byte address the checksummed string is `0x` followed by
40 characters, the character at hex position `i` being the corresponding
lowercase-hex character uppercased iff alphabetic and the hash nibble
(high nibble of `keccak256(hex)[i/2]` for even `i`, low for odd) is ≥ 8;
and the EIP-55 reference vector checksums exactly. -/
theorem C5_eip55 (addr : List Nat) (h20 : addr.length = 20) (hb : ∀ x ∈ addr, x < 256) :
    ((eth_checksum_address addr).data.take 2 = ['0', 'x'] ∧
     (eth_checksum_address addr).data.length = 42 ∧
     (∀ i < 40,
        (eth_checksum_address addr).data.getD (i + 2) ' '
          = eth_checksum_char
              (keccak256 ((to_hex addr).data.map Char.toNat)) i
              ((to_hex addr).data.getD i ' '))) ∧
    eth_checksum_address eip55TestAddr = ("0x5aAeb6053F3E94C9b9A09f33669435E7Ef1BeAed") := by
  have hlen : (to_hex addr).data.length = 40 := by
    rw [to_hex_data_length, h20]
  refine ⟨⟨rfl, ?_, ?_⟩, by decide⟩
  · show ('0' :: 'x' :: ((to_hex addr).data.enum.map _)).length = 42
    simp [List.length_map, List.enum_length, hlen]
  · intro i hi
    show ('0' :: 'x' :: ((to_hex addr).data.enum.map _)).getD (i + 2) ' ' = _
    rw [show i + 2 = (i + 1) + 1 from rfl, List.getD_cons_succ, List.getD_cons_succ]
    rw [show (to_hex addr).data.enum = List.enumFrom 0 (to_hex addr).data from rfl]
    rw [enumFrom_map_getD _ _ 0 i (by omega)]
    simp

/-- Witness for C5 at the EIP-55 reference vector. -/
theorem C5_witness :
    eip55TestAddr.length = 20 ∧
    eth_checksum_address eip55TestAddr = ("0x5aAeb6053F3E94C9b9A09f33669435E7Ef1BeAed") :=
  ⟨by decide, (C5_eip55 eip55TestAddr (by decide) (by decide)).2⟩

theorem hex_char_lower : ∀ c ∈ HEX_CHARS, c.toUpper.toLower = c ∧ c.toLower = c := by decide

theorem map_toLower_checksum (hash : List Nat) :
    ∀ (cs : List Char) (k : Nat), (∀ c ∈ cs, c ∈ HEX_CHARS) →
      (((List.enumFrom k cs).map (fun p => eth_checksum_char hash p.1 p.2)).map Char.toLower) = cs
  | [], _, _ => rfl
  | c :: cs, k, h => by
    simp only [List.enumFrom, List.map_cons]
    rw [map_toLower_checksum hash cs (k + 1) (fun x hx => h x (by simp [hx]))]
    obtain ⟨h1, h2⟩ := hex_char_lower c (h c (by simp))
    unfold eth_checksum_char
    by_cases ha : c.isAlpha
    · rw [if_pos ha]
      by_cases hn : 8 ≤ (if k % 2 = 0 then hash.getD (k / 2) 0 >>> 4 else hash.getD (k / 2) 0 &&& 0x0f)
      · rw [if_pos hn]
        simp only [h1]
      · rw [if_neg hn]
        rw [h2, h2]
    · rw [if_neg ha]
      simp only [h2]

/-- C8: the checksummed address starts with `0x` and lowercasing the
remaining 40 characters recovers exactly `to_hex(address)` — the checksum
casing never changes which hex digits appear, so the raw address is
recoverable from the checksummed text. -/
theorem C8_checksum_only_changes_case (addr : List Nat) (h20 : addr.length = 20)
    (hb : ∀ x ∈ addr, x < 256) :
    (eth_checksum_address addr).data.take 2 = ['0', 'x'] ∧
    (((eth_checksum_address addr).data.drop 2).map Char.toLower) = (to_hex addr).data := by
  refine ⟨rfl, ?_⟩
  show (((to_hex addr).data.enum.map
    (fun p => eth_checksum_char (keccak256 ((to_hex addr).data.map Char.toNat)) p.1 p.2)).map
      Char.toLower) = (to_hex addr).data
  exact map_toLower_checksum _ _ 0 (to_hex_chars_mem addr)

/-- Witness for C8 at the EIP-55 reference vector. -/
theorem C8_witness :
    eip55TestAddr.length = 20 ∧
    (((eth_checksum_address eip55TestAddr).data.drop 2).map Char.toLower)
      = (to_hex eip55TestAddr).data :=
  ⟨by decide,
   (C8_checksum_only_changes_case eip55TestAddr (by decide) (by decide)).2⟩

/-! ## Bech32 / Bech32m (bech32 crate, external collaborator embedded per
BIP-173/BIP-350: BCH checksum over 5-bit field elements, 8↔5 bit regrouping
with zero padding) and the source `bech32_encode` / `bech32_decode`
(src/kobe/src/encoding.rs); claims C1 and C6 -/

def BECH32_CHARSET : List Char := ("qpzry9x8gf2tvdw0s3jn54khce6mua7l").data

def BECH32_GEN : List Nat := [0x3b6a57b2, 0x26508e6d, 0x1ea119fa, 0x3d4233dd, 0x2a1462b3]

def bech32_polymod_step (v chk : Nat) : Nat :=
  let b := chk >>> 25
  let chk2 := ((chk &&& 0x1ffffff) <<< 5) ^^^ v
  (List.range 5).foldl (fun c i => if (b >>> i) &&& 1 = 1 then c ^^^ BECH32_GEN.getD i 0 else c) chk2

def bech32_polymod (values : List Nat) : Nat :=
  values.foldl (fun chk v => bech32_polymod_step v chk) 1

def bech32_hrp_expand (hrp : List Nat) : List Nat :=
  hrp.map (· >>> 5) ++ [0] ++ hrp.map (· &&& 31)

def BECH32_CONST : Nat := 1
def BECH32M_CONST : Nat := 0x2bc830a3

def bech32_create_checksum (const : Nat) (hrp data : List Nat) : List Nat :=
  let pm := bech32_polymod (bech32_hrp_expand hrp ++ data ++ [0, 0, 0, 0, 0, 0]) ^^^ const
  (List.range 6).map (fun i => (pm >>> (5 * (5 - i))) &&& 31)

def bech32_verify_checksum (const : Nat) (hrp data : List Nat) : Bool :=
  bech32_polymod (bech32_hrp_expand hrp ++ data) = const

-- 8-bit bytes to 5-bit field elements, MSB-first, zero-padded (pad = true)
def byteBits (k b : Nat) : List Nat :=
  (List.range k).map (fun i => (b >>> (k - 1 - i)) &&& 1)

def bitsToNum (bits : List Nat) : Nat := bits.foldl (fun a b => 2 * a + b) 0

def chunkBitsAux (k : Nat) : Nat → List Nat → List Nat
  | 0, _ => []
  | _+1, [] => []
  | fuel+1, bits =>
    bitsToNum ((bits.take k) ++ List.replicate (k - (bits.take k).length) 0)
      :: chunkBitsAux k fuel (bits.drop k)

def bytes_to_fes (bytes : List Nat) : List Nat :=
  let bits := (bytes.map (byteBits 8)).flatten
  chunkBitsAux 5 bits.length bits

-- 5-bit field elements back to bytes; padding must be < 5 bits and all zero
def fes_to_bytes (fes : List Nat) : Option (List Nat) :=
  let bits := (fes.map (byteBits 5)).flatten
  let nbytes := bits.length / 8
  let used := bits.take (8 * nbytes)
  let pad := bits.drop (8 * nbytes)
  if 5 ≤ pad.length then none
  else if pad.any (fun b => b ≠ 0) then none
  else some (chunkBitsAux 8 used.length used)

def Hrp_parse (hrp : String) : Option (List Char) :=
  if hrp.data.length = 0 ∨ 83 < hrp.data.length then none
  else if hrp.data.any (fun c => ¬(33 ≤ c.toNat ∧ c.toNat ≤ 126)) then none
  else if (hrp.data.any Char.isUpper) ∧ (hrp.data.any Char.isLower) then none
  else some hrp.data

/-- `bech32_encode` from the source: the version byte is pushed in front of
the program bytes and the whole byte string is handed to
`bech32::encode::<Bech32m>`, i.e. the Bech32m checksum constant is used for
EVERY witness version.  `Hrp::parse` failure maps to `InvalidEncoding`. -/
def bech32_encode (hrp : String) (version : Nat) (data : List Nat) : Except Error String :=
  match Hrp_parse hrp with
  | none => .error .InvalidEncoding
  | some hrpChars =>
    let hrpLower := hrpChars.map Char.toLower
    let hrpBytes := hrpLower.map Char.toNat
    let fes := bytes_to_fes (version :: data)
    let cks := bech32_create_checksum BECH32M_CONST hrpBytes fes
    .ok (String.mk (hrpLower ++ '1' :: (fes ++ cks).map (fun f => BECH32_CHARSET.getD f ' ')))

/-- Modelled from the spec: "witness version 0 must use Bech32, version ≥1
(Taproot) must use Bech32m".  Identical to `bech32_encode` except that the
checksum constant is selected by the witness version.  This is the encoder
the claim describes; the source lacks the selection. -/
def bech32_encode_spec (hrp : String) (version : Nat) (data : List Nat) : Except Error String :=
  match Hrp_parse hrp with
  | none => .error .InvalidEncoding
  | some hrpChars =>
    let hrpLower := hrpChars.map Char.toLower
    let hrpBytes := hrpLower.map Char.toNat
    let fes := bytes_to_fes (version :: data)
    let const := if version = 0 then BECH32_CONST else BECH32M_CONST
    let cks := bech32_create_checksum const hrpBytes fes
    .ok (String.mk (hrpLower ++ '1' :: (fes ++ cks).map (fun f => BECH32_CHARSET.getD f ' ')))

def bech32_charset_value (c : Char) : Option Nat := BECH32_CHARSET.findIdx? (fun x => x = c)

def bech32_charset_values : List Char → Option (List Nat)
  | [] => some []
  | c :: cs =>
    match bech32_charset_value c, bech32_charset_values cs with
    | some v, some vs => some (v :: vs)
    | _, _ => none

def lastSepIdx (cs : List Char) : Option Nat :=
  match cs.reverse.findIdx? (fun c => c = '1') with
  | none => none
  | some j => some (cs.length - 1 - j)

def bech32_split (s : String) : Option (List Char × List Nat) :=
  let cs := s.data
  if cs.any (fun c => ¬(33 ≤ c.toNat ∧ c.toNat ≤ 126)) then none
  else if (cs.any Char.isUpper) ∧ (cs.any Char.isLower) then none
  else match lastSepIdx cs with
    | none => none
    | some pos =>
      if (cs.take pos).length = 0 ∨ 83 < (cs.take pos).length then none
      else if ((cs.drop (pos + 1)).map Char.toLower).length < 6 then none
      else match bech32_charset_values ((cs.drop (pos + 1)).map Char.toLower) with
        | none => none
        | some vals => some (cs.take pos, vals)

/-- The bech32 crate's `decode`: split and validate the string, accept
either the Bech32 or the Bech32m checksum, then regroup the data part
(minus the 6 checksum characters) from 5-bit to 8-bit. -/
def bech32_crate_decode (s : String) : Option (String × List Nat) :=
  match bech32_split s with
  | none => none
  | some (hrp, vals) =>
    if bech32_verify_checksum BECH32_CONST ((hrp.map Char.toLower).map Char.toNat) vals
        ∨ bech32_verify_checksum BECH32M_CONST ((hrp.map Char.toLower).map Char.toNat) vals then
      match fes_to_bytes (vals.take (vals.length - 6)) with
      | none => none
      | some bytes => some (String.mk hrp, bytes)
    else none

/-- `bech32_decode` from the source: any crate-level failure (malformed
string, bad checksum, bad padding) maps to `InvalidEncoding`; an empty
decoded byte string yields `InvalidLength` with expected 1, actual 0; otherwise the
first byte is the version and the rest the program. -/
def bech32_decode (encoded : String) : Except Error (String × Nat × List Nat) :=
  match bech32_crate_decode encoded with
  | none => .error .InvalidEncoding
  | some (hrp, data) =>
    match data with
    | [] => .error (.InvalidLength 1 0)
    | version :: payload => .ok (hrp, version, payload)

def bech32EmptyPayloadStr : String :=
  String.mk (['b','c','1'] ++
    (bech32_create_checksum BECH32_CONST [98, 99] []).map (fun f => BECH32_CHARSET.getD f ' '))

/-- C1 (the code violates it): at witness version 0 the source encoder
disagrees with the spec-modelled encoder that selects Bech32 for version 0 —
the source always computes the Bech32m checksum; at version 1 they agree. -/
theorem C1_variant_selection :
    bech32_encode ("bc") 0 [0, 1] ≠ bech32_encode_spec ("bc") 0 [0, 1] ∧
    bech32_encode ("bc") 1 [0, 1] = bech32_encode_spec ("bc") 1 [0, 1] := by
  constructor
  · decide
  · decide

/-- C6 (amended): for every input string, a parse that reaches the checksum
stage but fails both checksum variants yields `InvalidEncoding` (as does any
other crate-level failure); a string decoding to zero data bytes yields
`InvalidLength` (expected 1, actual 0) — NOT `InvalidEncoding` — and any other
successful decode yields the `(hrp, version, program)` triple. -/
theorem C6_decode_taxonomy (s : String) :
    (∀ hrp vals, bech32_split s = some (hrp, vals) →
      bech32_verify_checksum BECH32_CONST ((hrp.map Char.toLower).map Char.toNat) vals = false →
      bech32_verify_checksum BECH32M_CONST ((hrp.map Char.toLower).map Char.toNat) vals = false →
      bech32_decode s = .error .InvalidEncoding) ∧
    (bech32_crate_decode s = none → bech32_decode s = .error .InvalidEncoding) ∧
    (∀ hrp, bech32_crate_decode s = some (hrp, []) →
      bech32_decode s = .error (.InvalidLength 1 0)) ∧
    (∀ hrp v payload, bech32_crate_decode s = some (hrp, v :: payload) →
      bech32_decode s = .ok (hrp, v, payload)) := by
  have hnone : bech32_crate_decode s = none → bech32_decode s = .error .InvalidEncoding := by
    intro h
    unfold bech32_decode
    rw [h]
  refine ⟨?_, hnone, ?_, ?_⟩
  · intro hrp vals hsplit hv1 hv2
    apply hnone
    unfold bech32_crate_decode
    rw [hsplit]
    simp only [List.map_map] at hv1 hv2
    simp [hv1, hv2]
  · intro hrp h
    unfold bech32_decode
    rw [h]
  · intro hrp v payload h
    unfold bech32_decode
    rw [h]

/-- Counterexample to C6 as stated: the valid-checksum string `bc1gmk9yu`
(hrp `bc`, zero data bytes) fails with `InvalidLength`, not with
`InvalidEncoding`. -/
theorem C6_counterexample :
    bech32_decode bech32EmptyPayloadStr = .error (.InvalidLength 1 0) ∧
    bech32_decode bech32EmptyPayloadStr ≠ .error .InvalidEncoding := by
  constructor
  · decide
  · decide

/-- Witness for C6 (amended) on three concrete strings: a corrupted
checksum, the empty-payload string, and a successful round-trip. -/
theorem C6_witness :
    bech32_decode ("bc1qqqsyqcyq") = .error .InvalidEncoding ∧
    bech32_decode bech32EmptyPayloadStr = .error (.InvalidLength 1 0) ∧
    bech32_decode ("bc1qqqsyqczj0dgv") = .ok (("bc"), 0, [1, 2, 3]) :=
  ⟨(C6_decode_taxonomy ("bc1qqqsyqcyq")).1 ['b', 'c'] [0, 0, 0, 16, 4, 0, 24, 4, 0]
      (by decide) (by decide) (by decide),
   (C6_decode_taxonomy bech32EmptyPayloadStr).2.2.1 ("bc") (by decide),
   (C6_decode_taxonomy ("bc1qqqsyqczj0dgv")).2.2.2 ("bc") 0 [1, 2, 3] (by decide)⟩

end Kobe
